import Mathlib

/-!
Shallow embedding of the core entity/component/event engine of flax
(`src/flax/things/arch.py`), with theorems checking the natural-language
specification against the code.

Conventions of the embedding:
* zope interface attributes (the identity objects `ICombatant[...]` used as
  keys of `component_data` and as `Modifier.stat` targets) are `Attr := Nat`;
* Python dicts keyed by attributes are association lists `List (Nat × α)`
  with first-match lookup and in-place overwrite, which matches dict
  behaviour for the operations the code performs;
* attribute values are `Int` (all default providers that the claims touch
  return integer constants);
* calls out to the world collaborator (`world.queue_immediate_event`,
  `world.current_map.remove`) are recorded as an effect list, since the
  world object is an external collaborator of this core.
-/

namespace Flax

/-- Identity of a zope interface attribute such as the health slot of
`ICombatant`. -/
abbrev Attr := Nat

/-- `Modifier` (arch.py line 441): a target attribute `stat` and an additive
delta `add`. -/
structure Modifier where
  stat : Attr
  add : Int
deriving DecidableEq, Repr

/-- `Modifier.modify` (arch.py lines 446-450): if `attr is not self.stat`
return the value unchanged, otherwise return `value + self.add`. -/
def Modifier.modify (m : Modifier) (attr : Attr) (value : Int) : Int :=
  if attr ≠ m.stat then value
  else value + m.add

/-- First-match lookup in an association list, the embedding of a Python
dict read `data[attr]` / membership test `attr in data`. -/
def alookup {α : Type} (data : List (Nat × α)) (k : Nat) : Option α :=
  match data with
  | [] => none
  | (a, v) :: rest => if a = k then some v else alookup rest k

/-- Overwriting store in an association list, the embedding of a Python
dict write `data[attr] = value`. -/
def aset {α : Type} (data : List (Nat × α)) (k : Nat) (v : α) : List (Nat × α) :=
  match data with
  | [] => [(k, v)]
  | (a, w) :: rest => if a = k then (a, v) :: rest else (a, w) :: aset rest k v

/-- The slice of a `Thing` (arch.py lines 37-41) and of its `ThingType` that
attribute resolution touches: `ident` is the identity of the entity,
`typeModifiers` is `thing.type.modifiers` (built at `ThingType` construction
time), `modifiers` is the runtime list `thing.modifiers` (initially empty),
and `component_data` is the lazily populated attribute store. -/
structure Thing where
  ident : Nat
  typeModifiers : List Modifier
  modifiers : List Modifier
  component_data : List (Attr × Int)
deriving DecidableEq, Repr

/-- The modifier loop of `ComponentAttribute.__get__` (arch.py lines
163-164): fold `mod.modify(attr, value)` over a modifier list. -/
def applyModifiers (mods : List Modifier) (attr : Attr) (value : Int) : Int :=
  mods.foldl (fun v m => m.modify attr v) value

/-- `ComponentAttribute.__get__` (arch.py lines 150-166) on a bound
component: if the attribute is absent from the entity `component_data`,
store the initializer result; read the stored value; then apply every
modifier in `self.entity.modifiers` in order.  Returns the value and the
(possibly lazily initialized) entity.  The default providers in the source
are constant functions, so the initializer is an `Int`. -/
def attrGet (initializer : Int) (attr : Attr) (t : Thing) : Int × Thing :=
  match alookup t.component_data attr with
  | some stored => (applyModifiers t.modifiers attr stored, t)
  | none =>
      (applyModifiers t.modifiers attr initializer,
       { t with component_data := aset t.component_data attr initializer })

/-- `ComponentAttribute.__set__` (arch.py lines 168-169): store the raw
value into the entity `component_data`, bypassing modifiers. -/
def attrSet (attr : Attr) (value : Int) (t : Thing) : Thing :=
  { t with component_data := aset t.component_data attr value }

/-- The slot read described by the words of the spec (section 4.3), for
comparison with `attrGet`: after fetching the stored value, apply each
modifier of `type.modifiers` followed by each modifier of
`entity.modifiers`.  This definition follows the spec, not the source. -/
def attrGetSpecRead (initializer : Int) (attr : Attr) (t : Thing) : Int × Thing :=
  match alookup t.component_data attr with
  | some stored => (applyModifiers (t.typeModifiers ++ t.modifiers) attr stored, t)
  | none =>
      (applyModifiers (t.typeModifiers ++ t.modifiers) attr initializer,
       { t with component_data := aset t.component_data attr initializer })

/-- Sum of the `add` deltas of the modifiers in a list whose target matches
the given attribute. -/
def matchingAddSum (mods : List Modifier) (attr : Attr) : Int :=
  ((mods.filter fun m => m.stat = attr).map Modifier.add).sum

theorem alookup_aset_self {α : Type} (data : List (Nat × α)) (k : Nat) (v : α) :
    alookup (aset data k v) k = some v := by
  induction data with
  | nil => simp [aset, alookup]
  | cons hd tl ih =>
      obtain ⟨a, w⟩ := hd
      by_cases h : a = k
      · subst h
        simp [aset, alookup]
      · simp [aset, alookup, h, ih]

theorem applyModifiers_eq_add_sum (mods : List Modifier) (attr : Attr) (value : Int) :
    applyModifiers mods attr value = value + matchingAddSum mods attr := by
  induction mods generalizing value with
  | nil => simp [applyModifiers, matchingAddSum]
  | cons m rest ih =>
      by_cases h : m.stat = attr
      · simp only [applyModifiers, List.foldl_cons] at *
        rw [ih]
        simp [matchingAddSum, Modifier.modify, h]
        ring
      · simp only [applyModifiers, List.foldl_cons] at *
        rw [ih]
        have hne : attr ≠ m.stat := fun hc => h hc.symm
        simp [matchingAddSum, Modifier.modify, hne, h]

theorem applyModifiers_append (ms ns : List Modifier) (attr : Attr) (value : Int) :
    applyModifiers (ms ++ ns) attr value
      = applyModifiers ns attr (applyModifiers ms attr value) := by
  simp [applyModifiers, List.foldl_append]

/-- C1 counterexample: on an entity whose ThingType carries a matching
modifier (stat 7, add 3) while the entity runtime modifier list is empty,
writing 0 to slot 7 and reading it back yields 0, not the 3 that the claim
(write plus matching deltas of `type.modifiers` then `entity.modifiers`)
predicts: `ComponentAttribute.__get__` iterates only
`self.entity.modifiers` and never consults `type.modifiers`. -/
theorem slot_read_type_modifiers_counterexample :
    (attrGet 10 7 (attrSet 7 0 (Thing.mk 1 [Modifier.mk 7 3] [] []))).1 = 0 ∧
    (attrGetSpecRead 10 7 (attrSet 7 0 (Thing.mk 1 [Modifier.mk 7 3] [] []))).1 = 3 ∧
    (0 : Int) ≠ 3 := by
  refine ⟨?_, ?_, by decide⟩ <;> decide

/-- C1 (amended): writing a value to a slot and then reading it returns the
written value plus the sum of the `add` deltas of every modifier in the
entity runtime modifier list (`entity.modifiers`, applied in list order)
whose target matches the slot; the modifiers of the ThingType
(`type.modifiers`) are not consulted by reads. -/
theorem slot_write_read_entity_modifiers (t : Thing) (attr : Attr) (v initializer : Int) :
    (attrGet initializer attr (attrSet attr v t)).1
      = v + matchingAddSum t.modifiers attr := by
  simp [attrGet, attrSet, alookup_aset_self, applyModifiers_eq_add_sum]

/-- C7: on a fresh entity (slot absent from `component_data`), the first
read stores the raw initializer result and returns it with the entity
runtime modifiers applied; a second read without an intervening write
returns the very same value and leaves the entity unchanged, so the default
provider is not invoked again; reading is total, so it never fails. -/
theorem slot_lazy_default (t : Thing) (attr : Attr) (initializer : Int)
    (habsent : alookup t.component_data attr = none) :
    alookup (attrGet initializer attr t).2.component_data attr = some initializer ∧
    (attrGet initializer attr t).1 = applyModifiers t.modifiers attr initializer ∧
    attrGet initializer attr (attrGet initializer attr t).2 = attrGet initializer attr t := by
  refine ⟨?_, ?_, ?_⟩ <;> simp [attrGet, habsent, alookup_aset_self]

/-- C7 witness: the lazy-default property evaluated on a concrete fresh
entity with initializer 10 (the Combatant health default). -/
theorem slot_lazy_default_witness :
    alookup (Thing.mk 1 [] [] []).component_data 0 = none ∧
    (alookup (attrGet 10 0 (Thing.mk 1 [] [] [])).2.component_data 0 = some 10 ∧
     (attrGet 10 0 (Thing.mk 1 [] [] [])).1
       = applyModifiers (Thing.mk 1 [] [] []).modifiers 0 10 ∧
     attrGet 10 0 (attrGet 10 0 (Thing.mk 1 [] [] [])).2
       = attrGet 10 0 (Thing.mk 1 [] [] [])) :=
  ⟨by decide, slot_lazy_default (Thing.mk 1 [] [] []) 0 10 (by decide)⟩

/-- The `ICombatant` health attribute identity. -/
def healthAttr : Attr := 0

/-- The `ICombatant` strength attribute identity, the target of the Armor
modifier (arch.py line 452). -/
def strengthAttr : Attr := 1

/-- Modelled from the spec: the `Damage` event class lives in `flax/event.py`,
which is not part of the sources; per the spec it carries an `amount`
payload (and actor/target/world references, modelled elsewhere). -/
structure Damage where
  amount : Int
deriving DecidableEq, Repr

/-- Calls the Combatant handlers make on the external world collaborator
(`event.world`), recorded as effects: `queueImmediateDie e` is
`world.queue_immediate_event(Die(entity e))` and `removeFromMap e` is
`world.current_map.remove(entity e)`. -/
inductive WorldEffect where
  | queueImmediateDie (entity : Nat)
  | removeFromMap (entity : Nat)
deriving DecidableEq, Repr

/-- `Combatant.handle_damage` (arch.py lines 278-283):
`self.health -= event.amount` is a descriptor read followed by a raw write;
then `if self.health <= 0` re-reads the slot through the descriptor and, if
it is zero or below, queues an immediate `Die` event for the bound entity.
The health default provider returns 10 (arch.py lines 270-272). -/
def handle_damage (ev : Damage) (t : Thing) : Thing × List WorldEffect :=
  let r1 := attrGet 10 healthAttr t
  let t1 := attrSet healthAttr (r1.1 - ev.amount) r1.2
  let r2 := attrGet 10 healthAttr t1
  if r2.1 ≤ 0 then (r2.2, [WorldEffect.queueImmediateDie t.ident])
  else (r2.2, [])

/-- `Combatant.handle_death` (arch.py lines 292-297): removes the bound
entity from the current map (the game-log print is not modelled). -/
def handle_death (t : Thing) : Thing × List WorldEffect :=
  (t, [WorldEffect.removeFromMap t.ident])

/-- C2: a Combatant entity with no modifiers and unwritten health takes
Damage(5) to stored health 5 with no queued event, a second Damage(5) to
stored health 0 together with an immediately queued Die event for the
entity, and handling the Die event removes the entity from the map;
moreover, for a stored health h with no modifiers, Damage(a) queues a Die
event if and only if h - a is zero or below. -/
theorem combatant_damage_death_scenario :
    (handle_damage (Damage.mk 5) (Thing.mk 1 [] [] [])).2 = [] ∧
    alookup (handle_damage (Damage.mk 5) (Thing.mk 1 [] [] [])).1.component_data
        healthAttr = some 5 ∧
    (handle_damage (Damage.mk 5)
        (handle_damage (Damage.mk 5) (Thing.mk 1 [] [] [])).1).2
      = [WorldEffect.queueImmediateDie 1] ∧
    alookup (handle_damage (Damage.mk 5)
        (handle_damage (Damage.mk 5) (Thing.mk 1 [] [] [])).1).1.component_data
        healthAttr = some 0 ∧
    (handle_death (handle_damage (Damage.mk 5)
        (handle_damage (Damage.mk 5) (Thing.mk 1 [] [] [])).1).1).2
      = [WorldEffect.removeFromMap 1] ∧
    (∀ h a : Int,
       (handle_damage (Damage.mk a) (Thing.mk 1 [] [] [(healthAttr, h)])).2
           = [WorldEffect.queueImmediateDie 1] ↔ h - a ≤ 0) := by
  refine ⟨by decide, by decide, by decide, by decide, by decide, ?_⟩
  intro h a
  by_cases hc : h - a ≤ 0 <;>
    simp [handle_damage, attrGet, attrSet, alookup, aset, applyModifiers,
      healthAttr, hc]

/-- C9: because reads apply the entity modifiers while writes store raw
values, `self.health -= event.amount` bakes an active health modifier into
storage: with stored health h and a runtime modifier adding d to the health
slot, Damage(a) stores h + d - a (not h - a), and the next read applies d
again, yielding h + d - a + d. -/
theorem damage_bakes_modifier_into_storage (h d a : Int) :
    alookup (handle_damage (Damage.mk a)
        (Thing.mk 1 [] [Modifier.mk healthAttr d] [(healthAttr, h)])).1.component_data
        healthAttr = some (h + d - a) ∧
    (attrGet 10 healthAttr (handle_damage (Damage.mk a)
        (Thing.mk 1 [] [Modifier.mk healthAttr d] [(healthAttr, h)])).1).1
      = h + d - a + d := by
  by_cases hc : h + d - a + d ≤ 0 <;>
    simp [handle_damage, attrGet, attrSet, alookup, aset, applyModifiers,
      Modifier.modify, healthAttr, hc]

/-- `Thing.add_modifiers` (arch.py lines 56-62): extend the entity runtime
modifier list with the given modifiers. -/
def add_modifiers (t : Thing) (ms : List Modifier) : Thing :=
  { t with modifiers := t.modifiers ++ ms }

/-- `Equipment.handle_equip` (arch.py lines 421-428): unconditionally call
`event.actor.add_modifiers(*self.entity.type.modifiers)` — the modifiers of
the item ThingType, not the item instance runtime list.  The `Equip` event
actor field is modelled from the spec (`flax/event.py` is not in the
sources): it references the wearer. -/
def handle_equip (item : Thing) (actor : Thing) : Thing :=
  add_modifiers actor item.typeModifiers

/-- The build-time modifier list of the `Armor` ThingType (arch.py line
452): a single modifier adding 3 to the `ICombatant` strength slot. -/
def armorTypeModifiers : List Modifier :=
  [Modifier.mk strengthAttr 3]

theorem attrGet_add_modifiers (t : Thing) (ms : List Modifier)
    (attr : Attr) (initializer : Int) :
    (attrGet initializer attr (add_modifiers t ms)).1
      = applyModifiers ms attr (attrGet initializer attr t).1 := by
  cases hl : alookup t.component_data attr <;>
    simp [attrGet, add_modifiers, hl, applyModifiers_append]

/-- C5: handling an Equip event for an Armor item appends the item
ThingType build-time modifiers (whatever the item instance runtime modifier
list holds) onto the wearer runtime modifier list, unconditionally; a
subsequent read of the wearer strength slot returns what it returned before
plus 3. -/
theorem equip_armor_adds_strength (itemIdent : Nat) (itemMods : List Modifier)
    (itemData : List (Attr × Int)) (wearer : Thing) (initializer : Int) :
    (handle_equip (Thing.mk itemIdent armorTypeModifiers itemMods itemData)
        wearer).modifiers
      = wearer.modifiers ++ armorTypeModifiers ∧
    (attrGet initializer strengthAttr
        (handle_equip (Thing.mk itemIdent armorTypeModifiers itemMods itemData)
          wearer)).1
      = (attrGet initializer strengthAttr wearer).1 + 3 := by
  constructor
  · rfl
  · rw [handle_equip, attrGet_add_modifiers]
    simp [armorTypeModifiers, applyModifiers, Modifier.modify, strengthAttr]

/-- `Component.handle_event` (arch.py lines 184-190), abstracted over the
handler type `H` and the state `S` a handler call acts on (entity, event
and world together): for every class in the event mro
(`type(event).__mro__`, listed most-specific first, concrete type down to
the root), run every handler the component table holds for that class, in
table (registration) order.  `table cls` embeds
`self.event_handlers[event_class]`; like the source defaultdict, a class
with no registered handlers yields the empty list. -/
def componentHandleEvent {H S : Type} (run : H → S → S) (table : Nat → List H)
    (mro : List Nat) (s : S) : S :=
  mro.foldl (fun acc cls => (table cls).foldl (fun acc h => run h acc) acc) s

/-- `Thing.handle_event` (arch.py lines 75-78): adapt each component of the
entity type in turn (`tables` lists the per-component handler tables in
component-map order) and let each handle the event. -/
def thingHandleEvent {H S : Type} (run : H → S → S)
    (tables : List (Nat → List H)) (mro : List Nat) (s : S) : S :=
  tables.foldl (fun acc tb => componentHandleEvent run tb mro acc) s

/-- The sequence of handlers one component dispatch invokes, obtained by
running the dispatcher itself under a trace-recording interpretation. -/
def componentFired {H : Type} (table : Nat → List H) (mro : List Nat) : List H :=
  componentHandleEvent (fun h tr => tr ++ [h]) table mro []

/-- The sequence of handlers a full entity dispatch invokes. -/
def thingFired {H : Type} (tables : List (Nat → List H)) (mro : List Nat) : List H :=
  thingHandleEvent (fun h tr => tr ++ [h]) tables mro []

theorem foldl_push_eq_append {H : Type} (l tr : List H) :
    l.foldl (fun acc h => acc ++ [h]) tr = tr ++ l := by
  induction l generalizing tr with
  | nil => simp
  | cons h rest ih => simp [ih]

theorem componentHandleEvent_eq_bind {H S : Type} (run : H → S → S)
    (table : Nat → List H) (mro : List Nat) (s : S) :
    componentHandleEvent run table mro s
      = (mro.flatMap table).foldl (fun acc h => run h acc) s := by
  induction mro generalizing s with
  | nil => rfl
  | cons cls rest ih =>
      show componentHandleEvent run table rest
          ((table cls).foldl (fun acc h => run h acc) s) = _
      rw [ih, List.flatMap_cons, List.foldl_append]

theorem thingHandleEvent_eq_bind {H S : Type} (run : H → S → S)
    (tables : List (Nat → List H)) (mro : List Nat) (s : S) :
    thingHandleEvent run tables mro s
      = (tables.flatMap fun tb => mro.flatMap tb).foldl (fun acc h => run h acc) s := by
  induction tables generalizing s with
  | nil => rfl
  | cons tb rest ih =>
      show thingHandleEvent run rest mro (componentHandleEvent run tb mro s) = _
      rw [ih, componentHandleEvent_eq_bind, List.flatMap_cons, List.foldl_append]

theorem componentFired_eq {H : Type} (table : Nat → List H) (mro : List Nat) :
    componentFired table mro = mro.flatMap table := by
  rw [componentFired, componentHandleEvent_eq_bind]
  exact foldl_push_eq_append _ _

theorem thingFired_eq {H : Type} (tables : List (Nat → List H)) (mro : List Nat) :
    thingFired tables mro = tables.flatMap fun tb => mro.flatMap tb := by
  rw [thingFired, thingHandleEvent_eq_bind]
  exact foldl_push_eq_append _ _

/-- The Walk-event state that the blocking-Physics scenario touches: the
event cancelled flag and the position of the mover (`event.actor`).
Modelled from the spec where arch.py defers to `flax/event.py` (not in the
sources): the cancelled flag defaults to false and `event.cancel()` sets it
to true. -/
structure WalkState where
  cancelled : Bool
  moverPos : Int × Int
deriving DecidableEq, Repr

/-- `Solid.handle_walk` (arch.py lines 220-222): `event.cancel()`; nothing
else is touched, in particular not the mover position. -/
def solidHandleWalk (s : WalkState) : WalkState :=
  { s with cancelled := true }

/-- C3: the Solid walk handler sets the event cancelled flag and leaves the
mover position unchanged; and dispatch never inspects the event state to
abort — for every interpretation of handlers, entity dispatch equals the
fold of all handlers of all components over the event mro, so every
remaining handler of every remaining component still runs after a
cancellation, in order. -/
theorem solid_walk_cancels_without_abort :
    (∀ s : WalkState, (solidHandleWalk s).cancelled = true ∧
        (solidHandleWalk s).moverPos = s.moverPos) ∧
    (∀ (H S : Type) (run : H → S → S) (tables : List (Nat → List H))
        (mro : List Nat) (s : S),
      thingHandleEvent run tables mro s
        = (tables.flatMap fun tb => mro.flatMap tb).foldl (fun acc h => run h acc) s) ∧
    (∀ (H : Type) (tables : List (Nat → List H)) (mro : List Nat),
      thingFired tables mro = tables.flatMap fun tb => mro.flatMap tb) :=
  ⟨fun _ => ⟨rfl, rfl⟩,
   fun _ _ run tables mro s => thingHandleEvent_eq_bind run tables mro s,
   fun _ tables mro => thingFired_eq tables mro⟩

/-- C4: a component dispatch walks the event mro most-specific class first
and, for each class, invokes that class handlers in registration order
(dispatch equals the fold over the mro-ordered concatenation of the handler
table rows); in particular a handler registered for an ancestor class in
the mro fires when the subtype event is dispatched. -/
theorem dispatch_walks_mro_in_order :
    (∀ (H S : Type) (run : H → S → S) (table : Nat → List H)
        (mro : List Nat) (s : S),
      componentHandleEvent run table mro s
        = (mro.flatMap table).foldl (fun acc h => run h acc) s) ∧
    (∀ (H : Type) (table : Nat → List H) (mro : List Nat) (cls : Nat) (h : H),
      cls ∈ mro → h ∈ table cls → h ∈ componentFired table mro) := by
  constructor
  · intro H S run table mro s
    exact componentHandleEvent_eq_bind run table mro s
  · intro H table mro cls h hcls hh
    rw [componentFired_eq]
    exact List.mem_flatMap.mpr ⟨cls, hcls, hh⟩

/-- Example handler table with a single handler, labelled 42, registered
for the root event class 0 only. -/
def ancestorTable : Nat → List Nat :=
  fun cls => if cls = 0 then [42] else []

/-- C4 witness: dispatching an event with mro [1, 0] (concrete class 1,
root class 0) over a table whose only handler is registered for the
ancestor class 0 fires that handler. -/
theorem dispatch_walks_mro_in_order_witness :
    (0 : Nat) ∈ [1, 0] ∧ (42 : Nat) ∈ ancestorTable 0 ∧
    (42 : Nat) ∈ componentFired ancestorTable [1, 0] :=
  ⟨by decide, by decide,
   dispatch_walks_mro_in_order.2 Nat ancestorTable [1, 0] 0 42
     (by decide) (by decide)⟩

/-- C10: when no component of the entity has a handler for any class of the
event mro, dispatch invokes no handler and returns the state unchanged (in
particular the entity attribute data and modifier list are untouched), and
it is total, so it raises nothing. -/
theorem dispatch_no_handlers_noop (H S : Type) (run : H → S → S)
    (tables : List (Nat → List H)) (mro : List Nat) (s : S)
    (hempty : ∀ tb ∈ tables, ∀ cls ∈ mro, tb cls = []) :
    thingHandleEvent run tables mro s = s ∧ thingFired tables mro = [] := by
  have hflat : (tables.flatMap fun tb => mro.flatMap tb) = ([] : List H) := by
    rw [List.flatMap_eq_nil_iff]
    intro tb htb
    rw [List.flatMap_eq_nil_iff]
    intro cls hcls
    exact hempty tb htb cls hcls
  constructor
  · rw [thingHandleEvent_eq_bind, hflat]
    rfl
  · rw [thingFired_eq, hflat]

/-- Example table of a component that only handles event class 5: it has no
handler for any class of the mro [1, 0] used in the C10 witness. -/
def probeTable : Nat → List Nat :=
  fun cls => if cls = 5 then [9] else []

/-- Example interpretation of handler labels: handler n writes n into
slot 0 of the entity, so an invoked handler would visibly change state. -/
def probeRun : Nat → Thing → Thing :=
  fun n t => attrSet 0 (Int.ofNat n) t

/-- Example fresh entity used to evaluate the dispatch theorems. -/
def exampleThing : Thing := Thing.mk 1 [] [] []

/-- C10 witness: dispatching an event with mro [1, 0] to an entity whose
only component handles only class 5 leaves the entity unchanged and fires
no handler. -/
theorem dispatch_no_handlers_noop_witness :
    (∀ tb ∈ [probeTable], ∀ cls ∈ ([1, 0] : List Nat), tb cls = []) ∧
    (thingHandleEvent probeRun [probeTable] [1, 0] exampleThing = exampleThing ∧
     thingFired [probeTable] [1, 0] = ([] : List Nat)) :=
  ⟨by decide,
   dispatch_no_handlers_noop Nat Thing probeRun [probeTable] [1, 0]
     exampleThing (by decide)⟩

/-- A handler declaration as `ComponentMeta.__new__` sees it (arch.py lines
83-100): the wrapped function (`Handler.func`, a label here) and the event
classes the `handler` decorator registered (`Handler.event_classes`). -/
structure HandlerDecl where
  func : Nat
  event_classes : List Nat
deriving DecidableEq, Repr

/-- A value in a component class body: a `Handler` instance or any other
attribute (an opaque label). -/
inductive AttrValue where
  | handlerV (h : HandlerDecl)
  | plain (v : Nat)
deriving DecidableEq, Repr

/-- A component event-handler table: event class to registered handler
functions in registration order (empty when none, like the defaultdict). -/
abbrev HandlerTable := Nat → List Nat

/-- One row append, `event_handlers[cls].append(func)`. -/
def tableAppend (t : HandlerTable) (cls fn : Nat) : HandlerTable :=
  fun c => if c = cls then t c ++ [fn] else t c

/-- The body of the `ComponentMeta.__new__` scan for one class-body entry:
for a `Handler` value, append its func to the row of each of its event
classes; leave the table alone otherwise. -/
def metaStep (t : HandlerTable) (kv : String × AttrValue) : HandlerTable :=
  match kv.2 with
  | AttrValue.handlerV h =>
      h.event_classes.foldl (fun t cls => tableAppend t cls h.func) t
  | AttrValue.plain _ => t

/-- `ComponentMeta.__new__` (arch.py lines 128-142): build `event_handlers`
by scanning the class body `attrs` in declaration order, starting from an
empty table.  The table the base classes computed (`basesTable`) is
received but never consulted, and the result is stored unconditionally
into the class, shadowing any base table. -/
def metaNewTable (_basesTable : HandlerTable)
    (attrs : List (String × AttrValue)) : HandlerTable :=
  attrs.foldl metaStep (fun _ => [])

/-- The handlers a class body declares for a given event class, in
declaration order: the description the spec gives of the table. -/
def declaredHandlers (attrs : List (String × AttrValue)) (cls : Nat) : List Nat :=
  attrs.flatMap fun kv =>
    match kv.2 with
    | AttrValue.handlerV h =>
        (h.event_classes.filter fun c => c = cls).map fun _ => h.func
    | AttrValue.plain _ => []

theorem tableAppend_foldl (ecs : List Nat) (fn : Nat) (t : HandlerTable)
    (cls : Nat) :
    (ecs.foldl (fun t c => tableAppend t c fn) t) cls
      = t cls ++ (ecs.filter fun c => c = cls).map (fun _ => fn) := by
  induction ecs generalizing t with
  | nil => simp
  | cons c rest ih =>
      by_cases h : c = cls
      · subst h
        simp [ih, tableAppend]
      · have h2 : ¬ cls = c := fun e => h e.symm
        simp [ih, tableAppend, h, h2]

theorem metaStep_foldl (attrs : List (String × AttrValue)) (t : HandlerTable)
    (cls : Nat) :
    (attrs.foldl metaStep t) cls = t cls ++ declaredHandlers attrs cls := by
  induction attrs generalizing t with
  | nil => simp [declaredHandlers]
  | cons kv rest ih =>
      obtain ⟨key, val⟩ := kv
      cases val with
      | handlerV h =>
          simp only [List.foldl_cons, ih, metaStep, declaredHandlers,
            List.flatMap_cons, tableAppend_foldl]
          rw [List.append_assoc]
      | plain v =>
          simp only [List.foldl_cons, ih, metaStep, declaredHandlers,
            List.flatMap_cons]
          rfl

/-- C8: the event-handler table of a component class is computed only from
the handlers declared in its own body, preserving declaration order (and,
per class, registration order of stacked declarations); the table computed
for the base classes never enters, so base handlers are not inherited
unless re-declared. -/
theorem handler_table_from_own_body_only :
    (∀ (basesTable : HandlerTable) (attrs : List (String × AttrValue))
        (cls : Nat),
      metaNewTable basesTable attrs cls = declaredHandlers attrs cls) ∧
    (∀ (bt1 bt2 : HandlerTable) (attrs : List (String × AttrValue)),
      metaNewTable bt1 attrs = metaNewTable bt2 attrs) := by
  constructor
  · intro basesTable attrs cls
    have h := metaStep_foldl attrs (fun _ => []) cls
    simpa [metaNewTable] using h
  · intro bt1 bt2 attrs
    rfl

/-- Identity of a zope capability interface. -/
abbrev Iface := Nat

/-- The `IComponent` marker interface (arch.py lines 124-125), which the
`ThingType.__init__` loop explicitly skips. -/
def IComponentI : Iface := 0

/-- A component class as `ThingType.__init__` sees it: an identity and the
interfaces `zi.implementedBy(component)` yields, possibly including the
`IComponent` marker. -/
structure ComponentC where
  cid : Nat
  ifaces : List Iface
deriving DecidableEq, Repr

/-- The inner loop of `ThingType.__init__` (arch.py lines 22-31) over the
interfaces of one component: skip `IComponent`; raise TypeError (modelled
as `Except.error`) when the interface is already a key of the components
map; otherwise map the interface to the component. -/
def insertIfaces (cid : Nat) (m : List (Iface × Nat)) :
    List Iface → Except Unit (List (Iface × Nat))
  | [] => Except.ok m
  | i :: rest =>
      if i = IComponentI then insertIfaces cid m rest
      else
        match alookup m i with
        | some _ => Except.error ()
        | none => insertIfaces cid (m ++ [(i, cid)]) rest

/-- One component of the outer `ThingType.__init__` loop. -/
def insertComponent (m : List (Iface × Nat)) (c : ComponentC) :
    Except Unit (List (Iface × Nat)) :=
  insertIfaces c.cid m c.ifaces

/-- The outer `ThingType.__init__` loop over the supplied components,
starting from map `m`; a raise aborts the whole construction. -/
def buildComponentsFrom (m : List (Iface × Nat)) :
    List ComponentC → Except Unit (List (Iface × Nat))
  | [] => Except.ok m
  | c :: rest =>
      match insertComponent m c with
      | Except.error e => Except.error e
      | Except.ok m2 => buildComponentsFrom m2 rest

/-- The components-map construction of `ThingType.__init__`, from the empty
map. -/
def buildComponents (comps : List ComponentC) :
    Except Unit (List (Iface × Nat)) :=
  buildComponentsFrom [] comps

/-- The capability set of a component: its implemented interfaces minus the
`IComponent` marker. -/
def caps (c : ComponentC) : List Iface :=
  c.ifaces.filter fun i => i ≠ IComponentI

/-- Two components implement no common capability. -/
def capDisjoint (c d : ComponentC) : Prop :=
  ∀ i ∈ caps c, i ∉ caps d

/-- The key list of a components map. -/
def keys (m : List (Iface × Nat)) : List Iface :=
  m.map Prod.fst

/-- The components map a successful construction produces: one entry per
capability of each component, in supply order. -/
def expectedComponents (comps : List ComponentC) : List (Iface × Nat) :=
  comps.flatMap fun c => (caps c).map fun i => (i, c.cid)

theorem alookup_eq_none_iff {α : Type} (m : List (Nat × α)) (k : Nat) :
    alookup m k = none ↔ k ∉ m.map Prod.fst := by
  induction m with
  | nil => simp [alookup]
  | cons hd tl ih =>
      obtain ⟨a, v⟩ := hd
      by_cases h : a = k
      · subst h
        simp [alookup]
      · have h2 : ¬ k = a := fun e => h e.symm
        simp [alookup, h, h2, ih]

theorem keys_append (m1 m2 : List (Iface × Nat)) :
    keys (m1 ++ m2) = keys m1 ++ keys m2 := by
  simp [keys]

theorem keys_capsMap (l : List Iface) (cid : Nat) :
    keys (l.map fun i => (i, cid)) = l := by
  simp [keys, List.map_map]
  exact List.map_id l

theorem insertIfaces_ok (cid : Nat) (l : List Iface) (m : List (Iface × Nat))
    (hnd : (l.filter fun i => i ≠ IComponentI).Nodup)
    (hfresh : ∀ i ∈ l.filter fun i => i ≠ IComponentI, i ∉ keys m) :
    insertIfaces cid m l
      = Except.ok
          (m ++ (l.filter fun i => i ≠ IComponentI).map fun i => (i, cid)) := by
  induction l generalizing m with
  | nil => simp [insertIfaces]
  | cons i rest ih =>
      by_cases hi : i = IComponentI
      · have hfilter : ((i :: rest).filter fun j => j ≠ IComponentI)
            = rest.filter fun j => j ≠ IComponentI := by
          simp [List.filter_cons, hi]
        rw [hfilter] at hnd hfresh
        rw [insertIfaces, if_pos hi]
        rw [hfilter]
        exact ih m hnd hfresh
      · have hfilter : ((i :: rest).filter fun j => j ≠ IComponentI)
            = i :: rest.filter fun j => j ≠ IComponentI := by
          simp [List.filter_cons, hi]
        rw [hfilter] at hnd hfresh
        have hmem : i ∉ keys m := hfresh i (List.mem_cons_self i _)
        have hnone : alookup m i = none := (alookup_eq_none_iff m i).mpr hmem
        rw [insertIfaces, if_neg hi, hnone]
        have hnd2 : (rest.filter fun j => j ≠ IComponentI).Nodup :=
          (List.nodup_cons.mp hnd).2
        have hihd : i ∉ rest.filter fun j => j ≠ IComponentI :=
          (List.nodup_cons.mp hnd).1
        have hfresh2 : ∀ j ∈ rest.filter fun j => j ≠ IComponentI,
            j ∉ keys (m ++ [(i, cid)]) := by
          intro j hj
          rw [keys_append]
          intro hmemj
          rcases List.mem_append.mp hmemj with hl | hr
          · exact hfresh j (List.mem_cons_of_mem i hj) hl
          · have : j = i := by simpa [keys] using hr
            exact hihd (this ▸ hj)
        rw [ih (m ++ [(i, cid)]) hnd2 hfresh2, hfilter]
        simp

theorem insertIfaces_error (cid : Nat) (l : List Iface) (m : List (Iface × Nat))
    (hclash : ∃ i ∈ l.filter fun i => i ≠ IComponentI, i ∈ keys m) :
    insertIfaces cid m l = Except.error () := by
  induction l generalizing m with
  | nil => simp at hclash
  | cons i rest ih =>
      obtain ⟨j, hj, hjm⟩ := hclash
      by_cases hi : i = IComponentI
      · have hfilter : ((i :: rest).filter fun k => k ≠ IComponentI)
            = rest.filter fun k => k ≠ IComponentI := by
          simp [List.filter_cons, hi]
        rw [hfilter] at hj
        rw [insertIfaces, if_pos hi]
        exact ih m ⟨j, hj, hjm⟩
      · have hfilter : ((i :: rest).filter fun k => k ≠ IComponentI)
            = i :: rest.filter fun k => k ≠ IComponentI := by
          simp [List.filter_cons, hi]
        rw [hfilter] at hj
        rw [insertIfaces, if_neg hi]
        cases hl : alookup m i with
        | some v => rfl
        | none =>
            have himem : i ∉ keys m := by
              have := (alookup_eq_none_iff m i).mp hl
              simpa [keys] using this
            rcases List.mem_cons.mp hj with hji | hjrest
            · exact absurd (hji ▸ hjm) himem
            · refine ih (m ++ [(i, cid)]) ⟨j, hjrest, ?_⟩
              rw [keys_append]
              exact List.mem_append.mpr (Or.inl hjm)

theorem buildComponentsFrom_ok (comps : List ComponentC)
    (m : List (Iface × Nat))
    (hnd : ∀ c ∈ comps, (caps c).Nodup)
    (hdisj : List.Pairwise capDisjoint comps)
    (hfresh : ∀ c ∈ comps, ∀ i ∈ caps c, i ∉ keys m) :
    buildComponentsFrom m comps
      = Except.ok (m ++ expectedComponents comps) := by
  induction comps generalizing m with
  | nil => simp [buildComponentsFrom, expectedComponents]
  | cons c rest ih =>
      have hndc : (caps c).Nodup := hnd c (List.mem_cons_self c _)
      have hfreshc : ∀ i ∈ caps c, i ∉ keys m :=
        hfresh c (List.mem_cons_self c _)
      have hins : insertComponent m c
          = Except.ok (m ++ (caps c).map fun i => (i, c.cid)) :=
        insertIfaces_ok c.cid c.ifaces m hndc hfreshc
      have hdisjc : ∀ d ∈ rest, capDisjoint c d :=
        (List.pairwise_cons.mp hdisj).1
      have hfresh2 : ∀ d ∈ rest, ∀ i ∈ caps d,
          i ∉ keys (m ++ (caps c).map fun i => (i, c.cid)) := by
        intro d hd i hi
        rw [keys_append, keys_capsMap]
        intro hmem
        rcases List.mem_append.mp hmem with hl | hr
        · exact hfresh d (List.mem_cons_of_mem c hd) i hi hl
        · exact hdisjc d hd i hr hi
      have hrec := ih (m ++ (caps c).map fun i => (i, c.cid))
        (fun d hd => hnd d (List.mem_cons_of_mem c hd))
        (List.pairwise_cons.mp hdisj).2 hfresh2
      simp only [buildComponentsFrom]
      rw [hins]
      show buildComponentsFrom (m ++ (caps c).map fun i => (i, c.cid)) rest
          = Except.ok (m ++ expectedComponents (c :: rest))
      rw [hrec]
      simp [expectedComponents, List.flatMap_cons]

theorem buildComponentsFrom_error (comps : List ComponentC)
    (m : List (Iface × Nat))
    (hnd : ∀ c ∈ comps, (caps c).Nodup)
    (hbad : (∃ c ∈ comps, ∃ i ∈ caps c, i ∈ keys m)
        ∨ ¬ List.Pairwise capDisjoint comps) :
    buildComponentsFrom m comps = Except.error () := by
  induction comps generalizing m with
  | nil =>
      rcases hbad with ⟨c, hc, _⟩ | hp
      · simp at hc
      · exact absurd List.Pairwise.nil hp
  | cons c rest ih =>
      by_cases hc : ∃ i ∈ caps c, i ∈ keys m
      · have herr : insertComponent m c = Except.error () :=
          insertIfaces_error c.cid c.ifaces m hc
        simp only [buildComponentsFrom]
        rw [herr]
      · push_neg at hc
        have hins : insertComponent m c
            = Except.ok (m ++ (caps c).map fun i => (i, c.cid)) :=
          insertIfaces_ok c.cid c.ifaces m
            (hnd c (List.mem_cons_self c _)) hc
        simp only [buildComponentsFrom]
        rw [hins]
        refine ih (m ++ (caps c).map fun i => (i, c.cid))
          (fun d hd => hnd d (List.mem_cons_of_mem c hd)) ?_
        rcases hbad with ⟨d, hd, i, hi, him⟩ | hp
        · rcases List.mem_cons.mp hd with hdc | hdrest
          · subst hdc
            exact absurd him (hc i hi)
          · refine Or.inl ⟨d, hdrest, i, hi, ?_⟩
            rw [keys_append]
            exact List.mem_append.mpr (Or.inl him)
        · rw [List.pairwise_cons] at hp
          by_cases hpr : List.Pairwise capDisjoint rest
          · by_cases hall : ∀ d ∈ rest, capDisjoint c d
            · exact absurd ⟨hall, hpr⟩ hp
            · push_neg at hall
              obtain ⟨d, hd, hcd⟩ := hall
              unfold capDisjoint at hcd
              push_neg at hcd
              obtain ⟨i, hic, hid⟩ := hcd
              refine Or.inl ⟨d, hd, i, hid, ?_⟩
              rw [keys_append, keys_capsMap]
              exact List.mem_append.mpr (Or.inr hic)
          · exact Or.inr hpr

theorem keys_expectedComponents (comps : List ComponentC) :
    keys (expectedComponents comps) = comps.flatMap caps := by
  induction comps with
  | nil => rfl
  | cons c rest ih =>
      simp only [expectedComponents, List.flatMap_cons, keys_append,
        keys_capsMap] at ih ⊢
      rw [ih]

/-- C6: constructing a ThingType from a list of components raises the
duplicate-capability TypeError exactly when two supplied components share a
capability (the `IComponent` marker excluded); on pairwise-disjoint
capability sets the construction succeeds with a components map holding
exactly one entry per implemented capability.  The hypothesis records that
`zi.implementedBy` yields each interface of a class once. -/
theorem thingtype_duplicate_capability (comps : List ComponentC)
    (hnd : ∀ c ∈ comps, (caps c).Nodup) :
    (buildComponents comps = Except.error ()
        ↔ ¬ List.Pairwise capDisjoint comps) ∧
    (List.Pairwise capDisjoint comps →
      buildComponents comps = Except.ok (expectedComponents comps) ∧
      keys (expectedComponents comps) = comps.flatMap caps ∧
      (comps.flatMap caps).Nodup) := by
  have hok : List.Pairwise capDisjoint comps →
      buildComponents comps = Except.ok (expectedComponents comps) := by
    intro hdisj
    have h := buildComponentsFrom_ok comps [] hnd hdisj
      (by intro c hc i hi; simp [keys])
    simpa [buildComponents] using h
  constructor
  · constructor
    · intro herr hdisj
      have h := hok hdisj
      rw [h] at herr
      exact Except.noConfusion herr
    · intro hdisj
      exact buildComponentsFrom_error comps [] hnd (Or.inr hdisj)
  · intro hdisj
    refine ⟨hok hdisj, keys_expectedComponents comps, ?_⟩
    rw [List.nodup_flatMap]
    refine ⟨hnd, hdisj.imp ?_⟩
    intro a b hab i hia hib
    exact hab i hia hib

/-- C6 witness: two components with distinct capabilities (component 1
implements interface 1, component 2 implements interface 2, both also
implementing the skipped `IComponent` marker 0) evaluate the construction
theorem; their capability lists are duplicate-free. -/
theorem thingtype_duplicate_capability_witness :
    (∀ c ∈ [ComponentC.mk 1 [0, 1], ComponentC.mk 2 [0, 2]],
        (caps c).Nodup) ∧
    ((buildComponents [ComponentC.mk 1 [0, 1], ComponentC.mk 2 [0, 2]]
          = Except.error ()
        ↔ ¬ List.Pairwise capDisjoint
            [ComponentC.mk 1 [0, 1], ComponentC.mk 2 [0, 2]]) ∧
     (List.Pairwise capDisjoint
          [ComponentC.mk 1 [0, 1], ComponentC.mk 2 [0, 2]] →
        buildComponents [ComponentC.mk 1 [0, 1], ComponentC.mk 2 [0, 2]]
            = Except.ok (expectedComponents
                [ComponentC.mk 1 [0, 1], ComponentC.mk 2 [0, 2]]) ∧
        keys (expectedComponents
            [ComponentC.mk 1 [0, 1], ComponentC.mk 2 [0, 2]])
          = [ComponentC.mk 1 [0, 1], ComponentC.mk 2 [0, 2]].flatMap caps ∧
        ([ComponentC.mk 1 [0, 1], ComponentC.mk 2 [0, 2]].flatMap
            caps).Nodup)) :=
  ⟨by decide,
   thingtype_duplicate_capability
     [ComponentC.mk 1 [0, 1], ComponentC.mk 2 [0, 2]] (by decide)⟩

end Flax
